import Mathlib

/-!
Verification of the batching / summarization / flush subsystem of the
ai-notify repository (src/index.mjs, src/eventSummary.mjs, src/dynamoUtils.mjs).

The JavaScript source is embedded shallowly:
pure functions become Lean functions, the external collaborators
(OpenAI summarizer, OpenAI consolidator, Slack delivery, DynamoDB
BatchWrite) become oracle function fields of a `Collab` record, and the
side effects of one invocation of `processProjectEvents` are collected
in an explicit `Trace` value.
-/

namespace AiNotify

/-- An item of the `team-events` DynamoDB table, as written by
`storeEvent` in dynamoUtils.mjs: partition key `projectName`, numeric sort
key `eventTime`, opaque payload `data`, and a numeric `ttl` attribute. -/
structure StoredEvent where
  projectName : String
  eventTime : Int
  data : String
  ttl : Int
deriving Repr, DecidableEq

/-- A Slack message object as produced by `generateEventSummary` /
`generateConsolidatedSummary` (eventSummary.mjs): parsed JSON whose `text`
field may be absent (`none`) or present. The Block Kit `blocks` field is
irrelevant to the control flow and is not modelled. -/
structure Msg where
  text : Option String
deriving Repr, DecidableEq

/-- JavaScript truthiness of `partialSummaryMessage.text`
(index.mjs line 145): the field exists and is a non-empty string. -/
def msgTextTruthy (m : Msg) : Bool :=
  match m.text with
  | some s => s ≠ ""
  | none => false

/-- The chunking loop of `processProjectEvents` (index.mjs lines 133-136):
`for (let i = 0; i < allEvents.length; i += MAX_EVENTS_PER_CHUNK)` with
`chunk = allEvents.slice(i, i + MAX_EVENTS_PER_CHUNK)`. Written with
structural recursion on a fuel argument; `chunkEvents` below instantiates
the fuel with the list length, which is enough fuel whenever the chunk
size is at least 1. The behaviour of the JS loop for chunk sizes below 1
(divergence, no config validation) is modelled separately by
`chunkLoopIndex` and `chunkLoopTerminates`. -/
def chunkEventsAux {α : Type} : Nat → Nat → List α → List (List α)
  | 0, _, _ => []
  | _ + 1, _, [] => []
  | fuel + 1, n, a :: l => ((a :: l).take n) :: chunkEventsAux fuel n ((a :: l).drop n)

/-- `allEvents.slice(i, i + n)` chunking of the whole list, chunk size `n`
(faithful to the JS loop for `n ≥ 1`). -/
def chunkEvents {α : Type} (n : Nat) (l : List α) : List (List α) :=
  chunkEventsAux l.length n l

theorem chunkEventsAux_eq_chunkEvents {α : Type} (fuel n : Nat) (l : List α)
    (hn : 1 ≤ n) (h : l.length ≤ fuel) :
    chunkEventsAux fuel n l = chunkEvents n l := by
  induction fuel using Nat.strong_induction_on generalizing l with
  | _ fuel ih =>
    match fuel, l with
    | 0, l =>
      have hl : l = [] := List.length_eq_zero.mp (Nat.le_zero.mp h)
      subst hl; rfl
    | f + 1, [] => rfl
    | f + 1, a :: l =>
      simp only [List.length_cons] at h
      have hdrop : ((a :: l).drop n).length ≤ f := by
        simp only [List.length_drop, List.length_cons]; omega
      have hdrop' : ((a :: l).drop n).length ≤ l.length := by
        simp only [List.length_drop, List.length_cons]; omega
      show ((a :: l).take n) :: chunkEventsAux f n ((a :: l).drop n) =
        chunkEventsAux (a :: l).length n (a :: l)
      simp only [List.length_cons, chunkEventsAux]
      rw [ih f (Nat.lt_succ_self f) _ hdrop,
        ih l.length (by omega) _ hdrop']

theorem chunkEvents_nil {α : Type} (n : Nat) : chunkEvents n ([] : List α) = [] := rfl

theorem chunkEvents_cons {α : Type} (n : Nat) (hn : 1 ≤ n) (a : α) (l : List α) :
    chunkEvents n (a :: l) =
      ((a :: l).take n) :: chunkEvents n ((a :: l).drop n) := by
  show chunkEventsAux (a :: l).length n (a :: l) = _
  simp only [List.length_cons, chunkEventsAux]
  congr 1
  apply chunkEventsAux_eq_chunkEvents _ _ _ hn
  simp only [List.length_drop, List.length_cons]; omega

theorem chunkEventsAux_flatten {α : Type} (fuel : Nat) :
    ∀ (n : Nat) (l : List α), 1 ≤ n → l.length ≤ fuel →
      (chunkEventsAux fuel n l).flatten = l := by
  induction fuel with
  | zero =>
    intro n l _ h
    have : l = [] := List.length_eq_zero.mp (Nat.le_zero.mp h)
    subst this; rfl
  | succ fuel ih =>
    intro n l hn h
    match l with
    | [] => rfl
    | a :: l =>
      simp only [chunkEventsAux, List.flatten_cons]
      rw [ih n _ hn (by simp only [List.length_drop, List.length_cons] at *; omega)]
      exact List.take_append_drop n (a :: l)

theorem chunkEventsAux_mem_length {α : Type} (fuel : Nat) :
    ∀ (n : Nat) (l : List α) (c : List α), c ∈ chunkEventsAux fuel n l → c.length ≤ n := by
  induction fuel with
  | zero => intro n l c hc; simp [chunkEventsAux] at hc
  | succ fuel ih =>
    intro n l c hc
    match l with
    | [] => simp [chunkEventsAux] at hc
    | a :: l =>
      simp only [chunkEventsAux, List.mem_cons] at hc
      rcases hc with hc | hc
      · subst hc; simp only [List.length_take]; omega
      · exact ih n _ c hc

theorem chunkEventsAux_mem_mem {α : Type} (fuel : Nat) :
    ∀ (n : Nat) (l : List α) (c : List α), c ∈ chunkEventsAux fuel n l →
      ∀ x ∈ c, x ∈ l := by
  induction fuel with
  | zero => intro n l c hc; simp [chunkEventsAux] at hc
  | succ fuel ih =>
    intro n l c hc x hx
    match l with
    | [] => simp [chunkEventsAux] at hc
    | a :: l =>
      simp only [chunkEventsAux, List.mem_cons] at hc
      rcases hc with hc | hc
      · subst hc; exact List.mem_of_mem_take hx
      · exact List.mem_of_mem_drop (ih n _ c hc x hx)

theorem chunkEventsAux_length {α : Type} (fuel : Nat) :
    ∀ (n : Nat) (l : List α), 1 ≤ n → l.length ≤ fuel →
      (chunkEventsAux fuel n l).length = (l.length + n - 1) / n := by
  induction fuel with
  | zero =>
    intro n l hn h
    have : l = [] := List.length_eq_zero.mp (Nat.le_zero.mp h)
    subst this
    simp only [chunkEventsAux, List.length_nil]
    rw [Nat.div_eq_of_lt (by omega)]
  | succ fuel ih =>
    intro n l hn h
    match l with
    | [] =>
      simp only [chunkEventsAux, List.length_nil]
      rw [Nat.div_eq_of_lt (by omega)]
    | a :: l =>
      simp only [chunkEventsAux, List.length_cons]
      rw [ih n _ hn (by simp only [List.length_drop, List.length_cons] at *; omega)]
      simp only [List.length_drop, List.length_cons]
      rcases Nat.lt_or_ge (l.length + 1) n with hlt | hge
      · have h1 : l.length + 1 - n = 0 := by omega
        rw [h1]
        rw [Nat.div_eq_of_lt (by omega)]
        rw [Nat.div_eq_of_lt_le (k := 1) (by omega) (by omega)]
      · have h2 : l.length + 1 + n - 1 = (l.length + 1 - n + n - 1) + n := by omega
        rw [h2, Nat.add_div_right _ (by omega)]

theorem chunkEventsAux_pairwise {α : Type} {R : α → α → Prop} (fuel : Nat) :
    ∀ (n : Nat) (l : List α), List.Pairwise R l →
      List.Pairwise (fun c c' => ∀ x ∈ c, ∀ y ∈ c', R x y) (chunkEventsAux fuel n l) := by
  induction fuel with
  | zero => intro n l _; exact List.Pairwise.nil
  | succ fuel ih =>
    intro n l hp
    match l with
    | [] => exact List.Pairwise.nil
    | a :: l =>
      simp only [chunkEventsAux]
      have hsplit : List.Pairwise R ((a :: l).take n ++ (a :: l).drop n) := by
        rw [List.take_append_drop]; exact hp
      rw [List.pairwise_append] at hsplit
      refine List.Pairwise.cons ?_ (ih n _ hsplit.2.1)
      intro c hc x hx y hy
      exact hsplit.2.2 x hx y (chunkEventsAux_mem_mem fuel n _ c hc y hy)

theorem chunkEvents_flatten {α : Type} (n : Nat) (l : List α) (hn : 1 ≤ n) :
    (chunkEvents n l).flatten = l :=
  chunkEventsAux_flatten l.length n l hn (Nat.le_refl _)

theorem chunkEvents_length {α : Type} (n : Nat) (l : List α) (hn : 1 ≤ n) :
    (chunkEvents n l).length = (l.length + n - 1) / n :=
  chunkEventsAux_length l.length n l hn (Nat.le_refl _)

/-- C6: chunking is a lossless partition: the chunks concatenate back to the
input, every chunk has length at most `n`, and the number of chunks is
`ceil(len/n)`, for every chunk size `n ≥ 1`. -/
theorem chunking_is_lossless_partition (l : List StoredEvent) (n : Nat) (hn : 1 ≤ n) :
    (chunkEvents n l).flatten = l ∧
    (∀ c ∈ chunkEvents n l, c.length ≤ n) ∧
    (chunkEvents n l).length = (l.length + n - 1) / n :=
  ⟨chunkEvents_flatten n l hn,
   fun c hc => chunkEventsAux_mem_length l.length n l c hc,
   chunkEvents_length n l hn⟩

/-- Comparator of the sort in shouldSendSummary (eventSummary.mjs line 261):
ascending by eventTime. -/
def eventTimeLe (a b : StoredEvent) : Prop := a.eventTime ≤ b.eventTime

instance : DecidableRel eventTimeLe :=
  fun a b => inferInstanceAs (Decidable (a.eventTime ≤ b.eventTime))

/-- Order in which a DynamoDB Query with ScanIndexForward false returns the
items of one partition: descending by the eventTime sort key. -/
def eventTimeGe (a b : StoredEvent) : Prop := b.eventTime ≤ a.eventTime

instance : DecidableRel eventTimeGe :=
  fun a b => inferInstanceAs (Decidable (b.eventTime ≤ a.eventTime))

instance : IsTotal StoredEvent eventTimeGe :=
  ⟨fun a b => Int.le_total b.eventTime a.eventTime⟩

instance : IsTrans StoredEvent eventTimeGe :=
  ⟨fun _ _ _ h h' => Int.le_trans h' h⟩

/-- Options object of shouldSendSummary with its default values
(eventSummary.mjs lines 242-246). -/
structure SummaryOptions where
  countThreshold : Nat := 20
  maxAgeSeconds : Int := 7200
  isScheduledCheck : Bool := false
deriving Repr, DecidableEq

/-- shouldSendSummary (eventSummary.mjs lines 241-281). currentTimeSeconds
models Math.floor(Date.now() / 1000) taken inside the function. -/
def shouldSendSummary (events : List StoredEvent) (opts : SummaryOptions)
    (currentTimeSeconds : Int) : Bool :=
  if events.length = 0 then false
  else if opts.countThreshold ≤ events.length then true
  else if opts.isScheduledCheck ∧ 0 < events.length then
    match List.insertionSort eventTimeLe events with
    | [] => false
    | oldestEvent :: _ =>
      if opts.maxAgeSeconds ≤ currentTimeSeconds - oldestEvent.eventTime then true
      else false
  else false

/-- storeEvent (dynamoUtils.mjs lines 37-72): the item written for a new
event. currentTimeMs models Date.now(), a Unix timestamp in MILLISECONDS;
the code stores it unchanged as the eventTime sort key, while the ttl
attribute divides it by 1000 into seconds and adds 10 minutes. -/
def storeEvent (projectName : String) (eventData : String) (currentTimeMs : Int) : StoredEvent :=
  { projectName := projectName
    eventTime := currentTimeMs
    data := eventData
    ttl := currentTimeMs / 1000 + 10 * 60 }

/-- getAllProjectEvents (dynamoUtils.mjs lines 81-109): a Query on the
partition projectName with ScanIndexForward false, so the result holds the
matching items sorted by the eventTime sort key in DESCENDING order
(newest first). The table is modelled as the list of its items. -/
def getAllProjectEvents (tableItems : List StoredEvent) (projectName : String) :
    List StoredEvent :=
  List.insertionSort eventTimeGe (tableItems.filter (fun e => e.projectName == projectName))

/-- The external collaborators consumed by one invocation:
summarize models generateEventSummary (OpenAI call, may throw),
consolidate models generateConsolidatedSummary (OpenAI call, may throw),
deliver models postToSlack (may throw), and sendDelete models one DynamoDB
BatchWriteCommand send of up to 25 delete requests (true = resolved,
false = rejected; the rejection is caught per batch). -/
structure Collab where
  summarize : List StoredEvent → Except Unit Msg
  consolidate : List String → Except Unit Msg
  deliver : Msg → Except Unit Unit
  sendDelete : List StoredEvent → Bool

/-- Externally visible calls made by one invocation of processProjectEvents:
the arguments of every generateEventSummary call, of every
generateConsolidatedSummary call, the number of postToSlack calls and
whether one succeeded, and the batches handed to the underlying DynamoDB
BatchWriteCommand sends. -/
structure Trace where
  summarizeCalls : List (List StoredEvent) := []
  consolidateCalls : List (List String) := []
  deliverCalls : Nat := 0
  deliverOk : Bool := false
  deleteCalls : List (List StoredEvent) := []
deriving Repr, DecidableEq

/-- Accumulator of the chunk loop (index.mjs lines 129-131): the collected
partial summary texts, the eventsProcessedInChunks counter, the chunkErrors
counter, and the summarizer calls made so far. -/
structure ChunkLoopState where
  partialSummaryTexts : List String
  eventsProcessedInChunks : Nat
  chunkErrors : Nat
  calls : List (List StoredEvent)
deriving Repr, DecidableEq

/-- One iteration of the chunk loop (index.mjs lines 140-153): call
generateEventSummary on the chunk; on success push the text when it is
truthy (and only then) and add the chunk length to the processed counter;
on a thrown error increment chunkErrors and continue with the next chunk.
Every iteration performs exactly one summarizer call. -/
def chunkStep (c : Collab) (st : ChunkLoopState) (chunk : List StoredEvent) : ChunkLoopState :=
  match c.summarize chunk with
  | Except.ok m =>
      { st with
        partialSummaryTexts :=
          if msgTextTruthy m then st.partialSummaryTexts ++ [m.text.getD ""]
          else st.partialSummaryTexts
        eventsProcessedInChunks := st.eventsProcessedInChunks + chunk.length
        calls := st.calls ++ [chunk] }
  | Except.error _ =>
      { st with chunkErrors := st.chunkErrors + 1, calls := st.calls ++ [chunk] }

/-- The chunk loop of processProjectEvents (index.mjs lines 133-154). -/
def runChunkLoop (c : Collab) (chunks : List (List StoredEvent)) : ChunkLoopState :=
  chunks.foldl (chunkStep c) ⟨[], 0, 0, []⟩

/-- JS truthiness of the key attributes checked by batchDeleteEvents
(dynamoUtils.mjs line 133): a missing or empty projectName and a missing or
zero eventTime are falsy and make the function throw. -/
def eventHasKeys (e : StoredEvent) : Bool :=
  (e.projectName != "") && (e.eventTime != 0)

/-- One entry of the results array of batchDeleteEvents. -/
structure DeleteBatchOutcome where
  success : Bool
  batchSize : Nat
deriving Repr, DecidableEq

/-- Observable behaviour of batchDeleteEvents: the per-batch results array,
the batches actually handed to the store, and whether the missing-keys
check threw (that throw happens outside the per-batch try/catch and aborts
the remaining batches). -/
structure DeleteRun where
  batchResults : List DeleteBatchOutcome
  calls : List (List StoredEvent)
  threw : Bool
deriving Repr, DecidableEq

/-- The batch loop of batchDeleteEvents (dynamoUtils.mjs lines 127-169),
processing the 25-item slices in order: a batch whose events all carry
truthy keys is sent, its outcome (resolved or caught rejection) is
recorded, and the loop continues regardless; a batch with a missing key
throws and aborts the remaining batches. -/
def runDeleteBatches (send : List StoredEvent → Bool) :
    List (List StoredEvent) → DeleteRun
  | [] => ⟨[], [], false⟩
  | b :: bs =>
    if b.all eventHasKeys then
      let r := send b
      let rest := runDeleteBatches send bs
      ⟨⟨r, b.length⟩ :: rest.batchResults, b :: rest.calls, rest.threw⟩
    else ⟨[], [], true⟩

/-- batchDeleteEvents (dynamoUtils.mjs lines 118-179): slice the events into
batches of BATCH_SIZE = 25, send each batch, and report overall success as
the conjunction of the per-batch results. -/
def batchDeleteEvents (send : List StoredEvent → Bool) (events : List StoredEvent) :
    DeleteRun × Bool :=
  let run := runDeleteBatches send (chunkEvents 25 events)
  (run, run.batchResults.all (fun r => r.success))

/-- The result object returned by processProjectEvents. A field that a given
JS return object omits is 0 here. -/
structure ProcResult where
  success : Bool
  action : String
  eventCount : Nat
  partialSummariesCount : Nat := 0
  chunkErrors : Nat := 0
  processedInChunks : Nat := 0
deriving Repr, DecidableEq

/-- Tail of the try block of processProjectEvents (index.mjs lines 190-220)
after the final summary message has been produced: post it to Slack; only
when that resolves, batch-delete ALL original events; a rejection of the
Slack post (or a throw inside batchDeleteEvents) is caught and returns
final_summary_processing_failed with the events NOT deleted beyond the
calls already made. -/
def afterFinal (c : Collab) (allEvents : List StoredEvent) (st : ChunkLoopState)
    (finalMsg : Msg) (sCalls : List (List StoredEvent)) (cCalls : List (List String)) :
    ProcResult × Trace :=
  match c.deliver finalMsg with
  | Except.error _ =>
      ({ success := false, action := "final_summary_processing_failed",
         eventCount := allEvents.length,
         partialSummariesCount := st.partialSummaryTexts.length,
         chunkErrors := st.chunkErrors },
       { summarizeCalls := sCalls, consolidateCalls := cCalls,
         deliverCalls := 1, deliverOk := false, deleteCalls := [] })
  | Except.ok _ =>
      let del := batchDeleteEvents c.sendDelete allEvents
      if del.1.threw then
        ({ success := false, action := "final_summary_processing_failed",
           eventCount := allEvents.length,
           partialSummariesCount := st.partialSummaryTexts.length,
           chunkErrors := st.chunkErrors },
         { summarizeCalls := sCalls, consolidateCalls := cCalls,
           deliverCalls := 1, deliverOk := true, deleteCalls := del.1.calls })
      else
        ({ success := true, action := "consolidated_summary_sent",
           eventCount := allEvents.length,
           partialSummariesCount := st.partialSummaryTexts.length,
           chunkErrors := st.chunkErrors },
         { summarizeCalls := sCalls, consolidateCalls := cCalls,
           deliverCalls := 1, deliverOk := true, deleteCalls := del.1.calls })

/-- processProjectEvents (index.mjs lines 88-222) for a project whose pending
events are allEvents (the list returned by getAllProjectEvents), with the
external collaborators c and the configured MAX_EVENTS_PER_CHUNK. Returns
the JS result object together with the trace of external calls. A
non-scheduled invocation returns before any summarization (lines 101-108);
a scheduled invocation with events always proceeds to chunking, with no
count or age threshold consulted (lines 120-136). -/
def processProjectEvents (c : Collab) (allEvents : List StoredEvent)
    (isScheduledCheck : Bool) (maxEventsPerChunk : Nat) : ProcResult × Trace :=
  if isScheduledCheck = false then
    ({ success := true, action := "event_stored_no_summary_sent_on_direct_invocation",
       eventCount := allEvents.length }, {})
  else if allEvents.length = 0 then
    ({ success := true, action := "no_events_to_process", eventCount := 0 }, {})
  else
    let st := runChunkLoop c (chunkEvents maxEventsPerChunk allEvents)
    if st.partialSummaryTexts.length = 0 ∧ 0 < allEvents.length then
      ({ success := false, action := "all_chunks_failed_to_summarize",
         eventCount := allEvents.length,
         processedInChunks := st.eventsProcessedInChunks,
         chunkErrors := st.chunkErrors },
       { summarizeCalls := st.calls })
    else if st.partialSummaryTexts.length = 0 ∧ allEvents.length = 0 then
      -- dead in the JS as well: allEvents.length = 0 returned earlier
      ({ success := true, action := "no_events_to_process", eventCount := 0 },
       { summarizeCalls := st.calls })
    else
      if st.partialSummaryTexts.length = 1 ∧ st.chunkErrors = 0 then
        -- single-summary promotion: re-generate from allEvents.slice(0, MAX_EVENTS_PER_CHUNK)
        match c.summarize (allEvents.take maxEventsPerChunk) with
        | Except.error _ =>
            ({ success := false, action := "final_summary_processing_failed",
               eventCount := allEvents.length,
               partialSummariesCount := st.partialSummaryTexts.length,
               chunkErrors := st.chunkErrors },
             { summarizeCalls := st.calls ++ [allEvents.take maxEventsPerChunk] })
        | Except.ok finalMsg =>
            afterFinal c allEvents st finalMsg
              (st.calls ++ [allEvents.take maxEventsPerChunk]) []
      else
        match c.consolidate st.partialSummaryTexts with
        | Except.error _ =>
            ({ success := false, action := "final_summary_processing_failed",
               eventCount := allEvents.length,
               partialSummariesCount := st.partialSummaryTexts.length,
               chunkErrors := st.chunkErrors },
             { summarizeCalls := st.calls, consolidateCalls := [st.partialSummaryTexts] })
        | Except.ok finalMsg =>
            afterFinal c allEvents st finalMsg st.calls [st.partialSummaryTexts]

/-- index.mjs line 120: the configured chunk size is the parsed raw value of
the MAX_EVENTS_PER_CHUNK environment variable when set, 15 otherwise; no
validation of any kind is applied to it. -/
def readMaxEventsPerChunk (envValue : Option Int) : Int :=
  match envValue with
  | some v => v
  | none => 15

/-- Value of the loop variable i of the chunking loop (index.mjs line 133)
after k iterations with the raw configured step: i starts at 0 and each
iteration adds the step. -/
def chunkLoopIndex (step : Int) (k : Nat) : Int := (k : Int) * step

/-- The chunking loop terminates exactly when some iteration count makes its
guard i < allEvents.length fail. -/
def chunkLoopTerminates (step : Int) (len : Nat) : Prop :=
  ∃ k : Nat, ¬ (chunkLoopIndex step k < (len : Int))

/-- Collaborators that always succeed, returning messages with truthy text,
used by the concrete runs below. -/
def okCollab : Collab :=
  { summarize := fun _ => Except.ok { text := some "summary" }
    consolidate := fun _ => Except.ok { text := some "consolidated" }
    deliver := fun _ => Except.ok ()
    sendDelete := fun _ => true }

/-- Collaborators whose summarizer always throws. -/
def failSummarizeCollab : Collab :=
  { okCollab with summarize := fun _ => Except.error () }

/-- Collaborators whose summarizer succeeds but returns a message with no
text field. -/
def noTextCollab : Collab :=
  { okCollab with summarize := fun _ => Except.ok { text := none } }

/-- Collaborators whose Slack delivery always throws. -/
def failDeliverCollab : Collab :=
  { okCollab with deliver := fun _ => Except.error () }

/-- Collaborators whose consolidation call always throws. -/
def failConsolidateCollab : Collab :=
  { okCollab with consolidate := fun _ => Except.error () }

/-- Sample events used by the concrete witnesses below. -/
def evA : StoredEvent := ⟨"redline", 1700000001000, "a", 1700000601⟩

def evB : StoredEvent := ⟨"redline", 1700000002000, "b", 1700000602⟩

def evC : StoredEvent := ⟨"redline", 1700000003000, "c", 1700000603⟩

/-- Witness for C6 at the concrete batch `[evA, evB, evC]` with chunk size 2. -/
theorem chunking_is_lossless_partition_witness :
    1 ≤ 2 ∧
    ((chunkEvents 2 [evA, evB, evC]).flatten = [evA, evB, evC] ∧
     (∀ c ∈ chunkEvents 2 [evA, evB, evC], c.length ≤ 2) ∧
     (chunkEvents 2 [evA, evB, evC]).length = (([evA, evB, evC].length) + 2 - 1) / 2) :=
  ⟨by decide, chunking_is_lossless_partition [evA, evB, evC] 2 (by decide)⟩
theorem foldl_chunkStep_calls (c : Collab) (chunks : List (List StoredEvent)) :
    ∀ st : ChunkLoopState, (chunks.foldl (chunkStep c) st).calls = st.calls ++ chunks := by
  induction chunks with
  | nil => intro st; simp
  | cons ch chunks ih =>
    intro st
    rw [List.foldl_cons, ih]
    cases h : c.summarize ch <;> simp [chunkStep, h]

/-- Every chunk is passed to the summarizer, whether the call succeeds or
throws: the recorded summarizer calls of the chunk loop are exactly the
chunks, in order. -/
theorem runChunkLoop_calls (c : Collab) (chunks : List (List StoredEvent)) :
    (runChunkLoop c chunks).calls = chunks := by
  rw [runChunkLoop, foldl_chunkStep_calls]
  rfl

theorem chunkEvents_ne_nil {α : Type} (n : Nat) (hn : 1 ≤ n) (l : List α) (h : l ≠ []) :
    chunkEvents n l ≠ [] := by
  match l with
  | [] => exact absurd rfl h
  | a :: l => rw [chunkEvents_cons n hn]; exact List.cons_ne_nil _ _

theorem afterFinal_summarizeCalls (c : Collab) (evs : List StoredEvent)
    (st : ChunkLoopState) (m : Msg) (s : List (List StoredEvent)) (k : List (List String)) :
    (afterFinal c evs st m s k).2.summarizeCalls = s := by
  unfold afterFinal
  cases c.deliver m with
  | error e => rfl
  | ok u => dsimp only; split <;> rfl

theorem afterFinal_consolidateCalls (c : Collab) (evs : List StoredEvent)
    (st : ChunkLoopState) (m : Msg) (s : List (List StoredEvent)) (k : List (List String)) :
    (afterFinal c evs st m s k).2.consolidateCalls = k := by
  unfold afterFinal
  cases c.deliver m with
  | error e => rfl
  | ok u => dsimp only; split <;> rfl

theorem afterFinal_cases (c : Collab) (evs : List StoredEvent)
    (st : ChunkLoopState) (m : Msg) (s : List (List StoredEvent)) (k : List (List String)) :
    ((afterFinal c evs st m s k).2.deleteCalls ≠ [] →
      (afterFinal c evs st m s k).2.deliverOk = true) ∧
    ((afterFinal c evs st m s k).1.action = "final_summary_processing_failed" ∧
      (afterFinal c evs st m s k).2.deliverOk = false →
      (afterFinal c evs st m s k).2.deleteCalls = []) ∧
    (afterFinal c evs st m s k).1.action ≠ "all_chunks_failed_to_summarize" := by
  unfold afterFinal
  cases c.deliver m with
  | error e =>
    refine ⟨fun h => absurd rfl h, fun _ => rfl, ?_⟩
    simp
  | ok u =>
    dsimp only
    split <;>
      exact ⟨fun _ => rfl, fun h => absurd h.2 (by simp), by simp⟩

/-- C3: in every invocation, the store delete is reached only after a
successful delivery: a nonempty list of delete calls implies the Slack post
succeeded, and on the all-chunks-failed path and on any failure before or at
delivery (consolidation failure, final-summary regeneration failure, or
delivery failure, all reported as final_summary_processing_failed with no
successful delivery) the delete call count is 0, leaving the pending events
stored untouched. -/
theorem deletion_only_after_delivery (c : Collab) (evs : List StoredEvent)
    (sched : Bool) (n : Nat) :
    ((processProjectEvents c evs sched n).2.deleteCalls ≠ [] →
      (processProjectEvents c evs sched n).2.deliverOk = true) ∧
    ((processProjectEvents c evs sched n).1.action = "all_chunks_failed_to_summarize" ∨
      ((processProjectEvents c evs sched n).1.action = "final_summary_processing_failed" ∧
       (processProjectEvents c evs sched n).2.deliverOk = false) →
      (processProjectEvents c evs sched n).2.deleteCalls = []) := by
  unfold processProjectEvents
  split
  · exact ⟨fun h => absurd rfl h, fun _ => rfl⟩
  · split
    · exact ⟨fun h => absurd rfl h, fun _ => rfl⟩
    · dsimp only
      split
      · exact ⟨fun h => absurd rfl h, fun _ => rfl⟩
      · split
        · exact ⟨fun h => absurd rfl h, fun _ => rfl⟩
        · split
          · split
            · exact ⟨fun h => absurd rfl h, fun _ => rfl⟩
            · rcases afterFinal_cases c evs
                (runChunkLoop c (chunkEvents n evs)) _
                ((runChunkLoop c (chunkEvents n evs)).calls ++ [evs.take n]) []
                with ⟨h1, h2, h3⟩
              exact ⟨h1, fun h => h.elim (fun ha => absurd ha h3) h2⟩
          · split
            · exact ⟨fun h => absurd rfl h, fun _ => rfl⟩
            · rcases afterFinal_cases c evs
                (runChunkLoop c (chunkEvents n evs)) _
                (runChunkLoop c (chunkEvents n evs)).calls
                [(runChunkLoop c (chunkEvents n evs)).partialSummaryTexts]
                with ⟨h1, h2, h3⟩
              exact ⟨h1, fun h => h.elim (fun ha => absurd ha h3) h2⟩

/-- Witness for C3: with a failing summarizer on a scheduled sweep the run
reports all_chunks_failed_to_summarize and makes zero delete calls. -/
theorem deletion_only_after_delivery_witness :
    (processProjectEvents failSummarizeCollab [evA] true 15).1.action =
      "all_chunks_failed_to_summarize" ∧
    (processProjectEvents failSummarizeCollab [evA] true 15).2.deleteCalls = [] :=
  ⟨by decide,
   (deletion_only_after_delivery failSummarizeCollab [evA] true 15).2
     (Or.inl (by decide))⟩
/-- An event freshly stored by storeEvent at Date.now() = 1700000000000 ms
(so its true age is 0 seconds at the wall-clock second 1700000000). -/
def freshEvent : StoredEvent := storeEvent "redline" "fresh" 1700000000000

/-- C1 is false on the code: on a scheduled sweep a project with a single
pending event (1 < countThreshold = 20) whose true age is 0 seconds
(< maxAgeSeconds = 7200) IS flushed: the summarizer is called, the summary
is delivered, and the event is deleted. processProjectEvents never consults
a count or age threshold on the scheduled path. -/
theorem sweep_flushes_small_fresh_batch_counterexample :
    [freshEvent].length < 20 ∧
    1700000000 - freshEvent.eventTime / 1000 < 7200 ∧
    (processProjectEvents okCollab [freshEvent] true 15).2.summarizeCalls ≠ [] ∧
    (processProjectEvents okCollab [freshEvent] true 15).2.deliverCalls = 1 ∧
    (processProjectEvents okCollab [freshEvent] true 15).2.deliverOk = true ∧
    (processProjectEvents okCollab [freshEvent] true 15).2.deleteCalls = [[freshEvent]] := by
  decide

/-- C1 (amended): on a scheduled sweep, any project with at least one
pending event is flushed regardless of the pending count and of the age of
its oldest event: the summarizer is invoked on every chunk of the batch
(the count/age thresholds live in shouldSendSummary, which this path never
consults). Only a project with zero pending events is skipped. -/
theorem scheduled_sweep_always_flushes (c : Collab) (evs : List StoredEvent) (n : Nat)
    (hn : 1 ≤ n) (hne : evs ≠ []) :
    (processProjectEvents c evs true n).2.summarizeCalls ≠ [] ∧
    (∀ ch ∈ chunkEvents n evs, ch ∈ (processProjectEvents c evs true n).2.summarizeCalls) := by
  have hchunks : chunkEvents n evs ≠ [] := chunkEvents_ne_nil n hn evs hne
  have hlen : ¬ evs.length = 0 := fun h => hne (List.length_eq_zero.mp h)
  unfold processProjectEvents
  rw [if_neg (by simp : ¬(true = false)), if_neg hlen]
  dsimp only
  repeat' split
  all_goals
    first
      | exact ⟨by simp [runChunkLoop_calls, hchunks],
          fun ch hch => by simpa [runChunkLoop_calls] using hch⟩
      | exact ⟨by simp [runChunkLoop_calls, hchunks],
          fun ch hch => by
            simp only [runChunkLoop_calls, List.mem_append]
            exact Or.inl hch⟩
      | (rw [afterFinal_summarizeCalls]
         exact ⟨by simp [runChunkLoop_calls, hchunks],
           fun ch hch => by simpa [runChunkLoop_calls] using hch⟩)
      | (rw [afterFinal_summarizeCalls]
         exact ⟨by simp [runChunkLoop_calls, hchunks],
           fun ch hch => by
             simp only [runChunkLoop_calls, List.mem_append]
             exact Or.inl hch⟩)

/-- Witness for C1 (amended) at a concrete scheduled run. -/
theorem scheduled_sweep_always_flushes_witness :
    (1 ≤ 15 ∧ [freshEvent] ≠ []) ∧
    (processProjectEvents okCollab [freshEvent] true 15).2.summarizeCalls ≠ [] :=
  ⟨⟨by decide, by decide⟩,
   (scheduled_sweep_always_flushes okCollab [freshEvent] 15 (by decide) (by decide)).1⟩

/-- Twenty sample events (= the default countThreshold). -/
def twentyEvents : List StoredEvent :=
  (List.range 20).map
    (fun i => { projectName := "redline", eventTime := (i : Int) + 1, data := "e", ttl := 0 })

/-- C2 is false on the code: an event-triggered (non-sweep) invocation with
20 pending events (= countThreshold, where shouldSendSummary would say
flush) performs no flush at all: no summarizer call, no delivery, no
deletion; it only reports that the event was stored. -/
theorem direct_invocation_with_full_batch_counterexample :
    twentyEvents.length = 20 ∧
    shouldSendSummary twentyEvents {} 1700000000 = true ∧
    processProjectEvents okCollab twentyEvents false 15 =
      ({ success := true, action := "event_stored_no_summary_sent_on_direct_invocation",
         eventCount := 20 }, {}) ∧
    (processProjectEvents okCollab twentyEvents false 15).2.summarizeCalls = [] ∧
    (processProjectEvents okCollab twentyEvents false 15).2.deliverCalls = 0 ∧
    (processProjectEvents okCollab twentyEvents false 15).2.deleteCalls = [] := by
  decide

/-- C2 (amended): an event-triggered (non-sweep) invocation never flushes,
no matter how many events are pending: it returns
event_stored_no_summary_sent_on_direct_invocation with an empty trace (no
summarizer, consolidation, delivery or delete call). The count threshold
itself lives in shouldSendSummary, which does return true for any nonempty
list of at least countThreshold events, but is not consulted by
processProjectEvents. -/
theorem direct_invocation_never_flushes (c : Collab) (evs : List StoredEvent) (n : Nat) :
    processProjectEvents c evs false n =
      ({ success := true, action := "event_stored_no_summary_sent_on_direct_invocation",
         eventCount := evs.length }, {}) ∧
    (∀ (opts : SummaryOptions) (now : Int), evs ≠ [] → opts.countThreshold ≤ evs.length →
      shouldSendSummary evs opts now = true) := by
  constructor
  · rfl
  · intro opts now hne hcount
    have hlen : ¬ evs.length = 0 := fun h => hne (List.length_eq_zero.mp h)
    unfold shouldSendSummary
    rw [if_neg hlen, if_pos hcount]

/-- Witness for C2 (amended) at the concrete 20-event batch. -/
theorem direct_invocation_never_flushes_witness :
    processProjectEvents okCollab twentyEvents false 15 =
      ({ success := true, action := "event_stored_no_summary_sent_on_direct_invocation",
         eventCount := twentyEvents.length }, {}) ∧
    shouldSendSummary twentyEvents {} 1700000000 = true :=
  ⟨(direct_invocation_never_flushes okCollab twentyEvents 15).1,
   (direct_invocation_never_flushes okCollab twentyEvents 15).2 {} 1700000000
     (by decide) (by decide)⟩

/-- C4 is false on the code: getAllProjectEvents returns the partition with
ScanIndexForward false, i.e. newest first, and processProjectEvents chunks
that list as is, so with two events (times 1700000001000 and 1700000002000)
and chunk size 1 the first chunk holds the LATER event: the chunks are not
in ascending chronological order. -/
theorem chunks_chronological_counterexample :
    getAllProjectEvents [evA, evB] "redline" = [evB, evA] ∧
    chunkEvents 1 (getAllProjectEvents [evA, evB] "redline") = [[evB], [evA]] ∧
    ¬ List.Pairwise (fun c c' => ∀ x ∈ c, ∀ y ∈ c', x.eventTime ≤ y.eventTime)
      (chunkEvents 1 (getAllProjectEvents [evA, evB] "redline")) := by
  refine ⟨by decide, by decide, ?_⟩
  intro hp
  rw [show chunkEvents 1 (getAllProjectEvents [evA, evB] "redline") = [[evB], [evA]]
    from by decide] at hp
  have := (List.pairwise_cons.mp hp).1 [evA] (by simp) evB (by simp) evA (by simp)
  exact absurd this (by decide)

/-- C4 (amended): the batch handed to a flush is chunked in REVERSE
chronological order: the store query produces the pending events newest
first (descending eventTime), contiguous chunking preserves that order, so
every event in chunk i occurred at or later than every event in chunk i+1,
and the summarizer receives the events newest-first end-to-end. -/
theorem chunks_reverse_chronological (tableItems : List StoredEvent) (p : String) (n : Nat) :
    List.Pairwise (fun c c' => ∀ x ∈ c, ∀ y ∈ c', y.eventTime ≤ x.eventTime)
      (chunkEvents n (getAllProjectEvents tableItems p)) := by
  have hs : List.Sorted eventTimeGe (getAllProjectEvents tableItems p) :=
    List.sorted_insertionSort eventTimeGe _
  exact chunkEventsAux_pairwise (R := eventTimeGe)
    (getAllProjectEvents tableItems p).length n _ hs

/-- C5 (code bug): storeEvent records Date.now(), a MILLISECOND timestamp,
unchanged as eventTime (its own ttl line divides by 1000 to get seconds),
while shouldSendSummary subtracts eventTime from a seconds clock and
generateEventSummary multiplies it by 1000 as if it were seconds. At the
concrete store time 1700000000000 ms and a sweep 7200 true seconds later,
the computed age is -1698299992800 seconds instead of 7200, so the age
threshold can never fire. -/
theorem stored_event_time_unit_mismatch :
    (storeEvent "redline" "data" 1700000000000).eventTime = 1700000000000 ∧
    (storeEvent "redline" "data" 1700000000000).ttl = 1700000600 ∧
    1700007200 - (storeEvent "redline" "data" 1700000000000).eventTime = -1698299992800 ∧
    1700007200 - (storeEvent "redline" "data" 1700000000000).eventTime / 1000 = 7200 ∧
    shouldSendSummary [storeEvent "redline" "data" 1700000000000]
      { isScheduledCheck := true } 1700007200 = false := by
  decide

/-- C9 is false on the code: index.mjs line 120 applies no validation to
MAX_EVENTS_PER_CHUNK; with the configured value 0 and a single pending
event the guard of the chunking loop (index i never leaves 0, 0 < 1)
never fails, so the loop never terminates and no ConfigError is raised. -/
theorem chunk_size_validation_counterexample :
    readMaxEventsPerChunk (some 0) = 0 ∧ ¬ chunkLoopTerminates 0 1 := by
  refine ⟨rfl, ?_⟩
  rintro ⟨k, hk⟩
  exact hk (by simp [chunkLoopIndex])

/-- C9 (amended): the code never validates the configured chunk size: the
raw parsed value is used as is; for a value of at most 0 with a nonempty
event list the chunking loop never terminates (it diverges instead of
raising a ConfigError), and for a value of at least 1 the loop
terminates. -/
theorem chunk_size_below_one_diverges (step : Int) (len : Nat) :
    readMaxEventsPerChunk (some step) = step ∧
    (step ≤ 0 → 1 ≤ len → ¬ chunkLoopTerminates step len) ∧
    (1 ≤ step → chunkLoopTerminates step len) := by
  refine ⟨rfl, ?_, ?_⟩
  · rintro hstep hlen ⟨k, hk⟩
    apply hk
    have h0 : (k : Int) * step ≤ 0 :=
      mul_nonpos_iff.mpr (Or.inl ⟨Int.natCast_nonneg k, hstep⟩)
    have h1 : (0 : Int) < (len : Int) := by exact_mod_cast hlen
    calc chunkLoopIndex step k = (k : Int) * step := rfl
      _ ≤ 0 := h0
      _ < (len : Int) := h1
  · intro hstep
    refine ⟨len, ?_⟩
    have h2 : (len : Int) ≤ (len : Int) * step :=
      le_mul_of_one_le_right (Int.natCast_nonneg len) hstep
    simpa [chunkLoopIndex] using h2

/-- Witness for C9 (amended): with the default-like value 1 the loop over a
one-event list terminates. -/
theorem chunk_size_below_one_diverges_witness :
    readMaxEventsPerChunk (some 1) = 1 ∧ chunkLoopTerminates 1 1 :=
  ⟨(chunk_size_below_one_diverges 1 1).1,
   (chunk_size_below_one_diverges 1 1).2.2 (by decide)⟩
theorem runDeleteBatches_all_keys (send : List StoredEvent → Bool)
    (batches : List (List StoredEvent))
    (h : ∀ b ∈ batches, b.all eventHasKeys = true) :
    (runDeleteBatches send batches).calls = batches ∧
    (runDeleteBatches send batches).threw = false := by
  induction batches with
  | nil => exact ⟨rfl, rfl⟩
  | cons b bs ih =>
    have hb : b.all eventHasKeys = true := h b (List.mem_cons_self b bs)
    rcases ih (fun b' hb' => h b' (List.mem_cons_of_mem b hb')) with ⟨h1, h2⟩
    simp only [runDeleteBatches, hb, if_true]
    exact ⟨by rw [h1], by rw [h2]⟩

theorem afterFinal_deliverOk_deleteCalls (c : Collab) (evs : List StoredEvent)
    (st : ChunkLoopState) (m : Msg) (s : List (List StoredEvent)) (k : List (List String)) :
    (afterFinal c evs st m s k).2.deliverOk = true →
    (afterFinal c evs st m s k).2.deleteCalls =
      (runDeleteBatches c.sendDelete (chunkEvents 25 evs)).calls := by
  unfold afterFinal
  cases c.deliver m with
  | error e => intro h; exact absurd h (by simp)
  | ok u =>
    intro _
    dsimp only [batchDeleteEvents]
    split <;> rfl

theorem processProjectEvents_deliverOk_deleteCalls (c : Collab) (evs : List StoredEvent)
    (sched : Bool) (n : Nat) :
    (processProjectEvents c evs sched n).2.deliverOk = true →
    (processProjectEvents c evs sched n).2.deleteCalls =
      (runDeleteBatches c.sendDelete (chunkEvents 25 evs)).calls := by
  unfold processProjectEvents
  dsimp only
  repeat' split
  all_goals intro h
  all_goals try exact afterFinal_deliverOk_deleteCalls _ _ _ _ _ _ h
  all_goals exact absurd h (by simp)

/-- C7: once delivery has succeeded, the delete phase is handed exactly the
events read at flush start: the batches passed to the underlying store
calls concatenate to the original read list (every event appears exactly
once, in order), they are re-chunked into ceil(n/25) consecutive calls of
at most 25 items each, and since the per-batch send outcome is arbitrary
here, a failed underlying call does not prevent the remaining calls. -/
theorem delete_exactly_original_events (c : Collab) (evs : List StoredEvent)
    (sched : Bool) (n : Nat)
    (hkeys : ∀ e ∈ evs, eventHasKeys e = true)
    (hdel : (processProjectEvents c evs sched n).2.deliverOk = true) :
    (processProjectEvents c evs sched n).2.deleteCalls.flatten = evs ∧
    (processProjectEvents c evs sched n).2.deleteCalls.length = (evs.length + 25 - 1) / 25 ∧
    (∀ b ∈ (processProjectEvents c evs sched n).2.deleteCalls, b.length ≤ 25) := by
  have hcalls := processProjectEvents_deliverOk_deleteCalls c evs sched n hdel
  have hbatches : ∀ b ∈ chunkEvents 25 evs, b.all eventHasKeys = true := by
    intro b hb
    rw [List.all_eq_true]
    intro e he
    exact hkeys e (chunkEventsAux_mem_mem evs.length 25 evs b hb e he)
  rcases runDeleteBatches_all_keys c.sendDelete _ hbatches with ⟨hc, _⟩
  rw [hcalls, hc]
  exact ⟨chunkEvents_flatten 25 evs (by omega), chunkEvents_length 25 evs (by omega),
    fun b hb => chunkEventsAux_mem_length evs.length 25 evs b hb⟩

/-- Twenty-six sample events: enough to need two delete batches (25 + 1). -/
def manyEvents : List StoredEvent :=
  (List.range 26).map
    (fun i => { projectName := "redline", eventTime := (i : Int) + 1, data := "e", ttl := 0 })

/-- Witness for C7 at a concrete successful 26-event flush: two underlying
delete calls whose concatenation is the original read list. -/
theorem delete_exactly_original_events_witness :
    (∀ e ∈ manyEvents, eventHasKeys e = true) ∧
    (processProjectEvents okCollab manyEvents true 15).2.deliverOk = true ∧
    (processProjectEvents okCollab manyEvents true 15).2.deleteCalls.flatten = manyEvents ∧
    (processProjectEvents okCollab manyEvents true 15).2.deleteCalls.length = 2 := by
  have h := delete_exactly_original_events okCollab manyEvents true 15
    (by decide) (by decide)
  exact ⟨by decide, by decide, h.1, by rw [h.2.1]; decide⟩

theorem flush_promotion_path (c : Collab) (evs : List StoredEvent) (n : Nat)
    (hlen : ¬ evs.length = 0)
    (hpromo : (runChunkLoop c (chunkEvents n evs)).partialSummaryTexts.length = 1 ∧
              (runChunkLoop c (chunkEvents n evs)).chunkErrors = 0) :
    (processProjectEvents c evs true n).2.consolidateCalls = [] ∧
    (processProjectEvents c evs true n).2.summarizeCalls =
      (runChunkLoop c (chunkEvents n evs)).calls ++ [evs.take n] := by
  have hno : ¬ ((runChunkLoop c (chunkEvents n evs)).partialSummaryTexts.length = 0 ∧
      0 < evs.length) := fun h => by omega
  have hno' : ¬ ((runChunkLoop c (chunkEvents n evs)).partialSummaryTexts.length = 0 ∧
      evs.length = 0) := fun h => by omega
  unfold processProjectEvents
  rw [if_neg (by simp : ¬(true = false)), if_neg hlen]
  dsimp only
  rw [if_neg hno, if_neg hno', if_pos hpromo]
  cases hsum : c.summarize (evs.take n) with
  | error e => exact ⟨rfl, rfl⟩
  | ok m =>
    exact ⟨afterFinal_consolidateCalls c evs _ m _ [],
      afterFinal_summarizeCalls c evs _ m _ []⟩

theorem flush_consolidation_path (c : Collab) (evs : List StoredEvent) (n : Nat)
    (hlen : ¬ evs.length = 0)
    (hsome : ¬ (runChunkLoop c (chunkEvents n evs)).partialSummaryTexts.length = 0)
    (hnp : ¬ ((runChunkLoop c (chunkEvents n evs)).partialSummaryTexts.length = 1 ∧
              (runChunkLoop c (chunkEvents n evs)).chunkErrors = 0)) :
    (processProjectEvents c evs true n).2.consolidateCalls =
      [(runChunkLoop c (chunkEvents n evs)).partialSummaryTexts] := by
  have hno : ¬ ((runChunkLoop c (chunkEvents n evs)).partialSummaryTexts.length = 0 ∧
      0 < evs.length) := fun h => hsome h.1
  have hno' : ¬ ((runChunkLoop c (chunkEvents n evs)).partialSummaryTexts.length = 0 ∧
      evs.length = 0) := fun h => hsome h.1
  unfold processProjectEvents
  rw [if_neg (by simp : ¬(true = false)), if_neg hlen]
  dsimp only
  rw [if_neg hno, if_neg hno', if_neg hnp]
  cases hcon : c.consolidate (runChunkLoop c (chunkEvents n evs)).partialSummaryTexts with
  | error e => rfl
  | ok m => exact afterFinal_consolidateCalls c evs _ m _ _

theorem flush_all_chunks_failed_path (c : Collab) (evs : List StoredEvent) (n : Nat)
    (hlen : ¬ evs.length = 0)
    (hzero : (runChunkLoop c (chunkEvents n evs)).partialSummaryTexts.length = 0) :
    processProjectEvents c evs true n =
      ({ success := false, action := "all_chunks_failed_to_summarize",
         eventCount := evs.length,
         processedInChunks := (runChunkLoop c (chunkEvents n evs)).eventsProcessedInChunks,
         chunkErrors := (runChunkLoop c (chunkEvents n evs)).chunkErrors },
       { summarizeCalls := (runChunkLoop c (chunkEvents n evs)).calls }) := by
  unfold processProjectEvents
  rw [if_neg (by simp : ¬(true = false)), if_neg hlen]
  dsimp only
  rw [if_pos ⟨hzero, by omega⟩]

/-- C8: the consolidation capability is invoked exactly when more than one
partial summary text was produced, or at least one chunk error occurred
alongside at least one produced text; and when exactly one chunk existed
and it alone produced the one text with zero errors, the final summary is
re-derived by one extra summarizer call on the FULL event set
(allEvents.slice(0, MAX) = allEvents for a single chunk) with no
consolidation call. -/
theorem consolidation_exactly_when_needed (c : Collab) (evs : List StoredEvent) (n : Nat)
    (hn : 1 ≤ n) (hne : evs ≠ []) :
    ((processProjectEvents c evs true n).2.consolidateCalls ≠ [] ↔
      (1 < (runChunkLoop c (chunkEvents n evs)).partialSummaryTexts.length ∨
       (1 ≤ (runChunkLoop c (chunkEvents n evs)).chunkErrors ∧
        1 ≤ (runChunkLoop c (chunkEvents n evs)).partialSummaryTexts.length))) ∧
    ((chunkEvents n evs).length = 1 →
     (runChunkLoop c (chunkEvents n evs)).partialSummaryTexts.length = 1 →
     (runChunkLoop c (chunkEvents n evs)).chunkErrors = 0 →
     (processProjectEvents c evs true n).2.consolidateCalls = [] ∧
     (processProjectEvents c evs true n).2.summarizeCalls =
       chunkEvents n evs ++ [evs]) := by
  have hlen : ¬ evs.length = 0 := fun h => hne (List.length_eq_zero.mp h)
  constructor
  · by_cases hzero : (runChunkLoop c (chunkEvents n evs)).partialSummaryTexts.length = 0
    · rw [flush_all_chunks_failed_path c evs n hlen hzero]
      constructor
      · intro h
        exact absurd rfl h
      · intro h
        exfalso
        omega
    · by_cases hpromo : (runChunkLoop c (chunkEvents n evs)).partialSummaryTexts.length = 1 ∧
          (runChunkLoop c (chunkEvents n evs)).chunkErrors = 0
      · rw [(flush_promotion_path c evs n hlen hpromo).1]
        constructor
        · intro h
          exact absurd rfl h
        · intro h
          exfalso
          omega
      · rw [flush_consolidation_path c evs n hlen hzero hpromo]
        constructor
        · intro _
          omega
        · intro _
          exact List.cons_ne_nil _ _
  · intro hone h1 h0
    have hlen_le : evs.length ≤ n := by
      by_contra hgt
      push_neg at hgt
      have hcl := chunkEvents_length n evs hn
      rw [hone] at hcl
      have h2 : 2 * n ≤ evs.length + n - 1 := by omega
      have h3 : 2 ≤ (evs.length + n - 1) / n := (Nat.le_div_iff_mul_le (by omega)).mpr h2
      omega
    rcases flush_promotion_path c evs n hlen ⟨h1, h0⟩ with ⟨hc, hs⟩
    refine ⟨hc, ?_⟩
    rw [hs, runChunkLoop_calls, List.take_of_length_le hlen_le]

/-- Witness for C8 at a concrete single-chunk flush: one chunk, one partial
text, zero errors; the summarizer runs once on the chunk and once more on
the full event set, and consolidation is never called. -/
theorem consolidation_exactly_when_needed_witness :
    ((processProjectEvents okCollab [evA, evB] true 15).2.consolidateCalls = [] ∧
     (processProjectEvents okCollab [evA, evB] true 15).2.summarizeCalls =
       chunkEvents 15 [evA, evB] ++ [[evA, evB]]) ∧
    ¬ (1 < (runChunkLoop okCollab (chunkEvents 15 [evA, evB])).partialSummaryTexts.length ∨
       (1 ≤ (runChunkLoop okCollab (chunkEvents 15 [evA, evB])).chunkErrors ∧
        1 ≤ (runChunkLoop okCollab (chunkEvents 15 [evA, evB])).partialSummaryTexts.length)) := by
  have h := consolidation_exactly_when_needed okCollab [evA, evB] 15 (by decide) (by decide)
  refine ⟨h.2 (by decide) (by decide) (by decide), ?_⟩
  intro hx
  exact absurd ((h.1.mpr hx)) (by
    rw [(h.2 (by decide) (by decide) (by decide)).1]
    simp)

theorem foldl_chunkStep_no_text (c : Collab)
    (h : ∀ l, ∃ m, c.summarize l = Except.ok m ∧ msgTextTruthy m = false)
    (chunks : List (List StoredEvent)) :
    ∀ st, (chunks.foldl (chunkStep c) st).partialSummaryTexts = st.partialSummaryTexts ∧
          (chunks.foldl (chunkStep c) st).chunkErrors = st.chunkErrors := by
  induction chunks with
  | nil => intro st; exact ⟨rfl, rfl⟩
  | cons ch chunks ih =>
    intro st
    rcases h ch with ⟨m, hm, ht⟩
    rw [List.foldl_cons]
    rcases ih (chunkStep c st ch) with ⟨h1, h2⟩
    rw [h1, h2]
    constructor <;> simp [chunkStep, hm, ht]

/-- C10: a successful summarizer result without a truthy text field is
silently dropped: it contributes neither a partial summary text nor a chunk
error; and if every chunk succeeds that way, the flush reports
all_chunks_failed_to_summarize with chunkErrors = 0 (while counting every
event as processed) and performs no deletion. -/
theorem textless_success_silently_dropped (c : Collab) (evs : List StoredEvent)
    (n : Nat) (st : ChunkLoopState) (ch : List StoredEvent) (m : Msg)
    (hok : c.summarize ch = Except.ok m) (ht : msgTextTruthy m = false)
    (hall : ∀ l, ∃ m', c.summarize l = Except.ok m' ∧ msgTextTruthy m' = false)
    (hne : evs ≠ []) :
    ((chunkStep c st ch).partialSummaryTexts = st.partialSummaryTexts ∧
     (chunkStep c st ch).chunkErrors = st.chunkErrors) ∧
    ((processProjectEvents c evs true n).1.action = "all_chunks_failed_to_summarize" ∧
     (processProjectEvents c evs true n).1.chunkErrors = 0 ∧
     (processProjectEvents c evs true n).2.deleteCalls = []) := by
  have hlen : ¬ evs.length = 0 := fun h => hne (List.length_eq_zero.mp h)
  have hfold := foldl_chunkStep_no_text c hall (chunkEvents n evs) ⟨[], 0, 0, []⟩
  have hzero : (runChunkLoop c (chunkEvents n evs)).partialSummaryTexts.length = 0 := by
    rw [runChunkLoop, hfold.1]
    rfl
  have herr : (runChunkLoop c (chunkEvents n evs)).chunkErrors = 0 := by
    rw [runChunkLoop, hfold.2]
  constructor
  · constructor <;> simp [chunkStep, hok, ht]
  · rw [flush_all_chunks_failed_path c evs n hlen hzero]
    exact ⟨rfl, herr, rfl⟩

/-- Witness for C10: with a summarizer that always returns a message without
a text field, a two-chunk run keeps no text, counts no error, reports
all_chunks_failed_to_summarize, and deletes nothing. -/
theorem textless_success_silently_dropped_witness :
    (noTextCollab.summarize [evA] = Except.ok { text := none } ∧
     msgTextTruthy { text := none } = false) ∧
    ((processProjectEvents noTextCollab [evA, evB] true 1).1.action =
       "all_chunks_failed_to_summarize" ∧
     (processProjectEvents noTextCollab [evA, evB] true 1).1.chunkErrors = 0 ∧
     (processProjectEvents noTextCollab [evA, evB] true 1).2.deleteCalls = []) :=
  ⟨⟨rfl, rfl⟩,
   (textless_success_silently_dropped noTextCollab [evA, evB] 1 ⟨[], 0, 0, []⟩
     [evA] { text := none } rfl rfl
     (fun _ => ⟨{ text := none }, rfl, rfl⟩) (by decide)).2⟩

end AiNotify
